import Mathlib

/-!
Shallow embedding of the `minecraft-2d` world/state engine
(`src/lib.rs`, `src/tiles.rs`, `src/items.rs`, `src/inventory.rs`,
`src/input.rs`, `src/utils.rs`).

Rust `HashMap`s are embedded as association lists whose list order stands
for the map's iteration order; machine integers (`i32` coordinates,
`usize` counts, `u8` wood stages) are embedded as `Int`/`Nat`, since no
operation of the engine can overflow them on the inputs the claims
concern.  The procedural generator `State::generate_tile` samples Perlin
noise through `f64` arithmetic; it is embedded as an explicit parameter
`gen : Pos → Tile`, a pure deterministic function, which is all the engine
ever relies on.  Rust panics (`expect`, `assert!`, `panic!`) are embedded
as `Option`/dedicated result constructors.
-/

/-- `type Pos = (i32, i32)` from `src/utils.rs`. -/
abbrev Pos := Int × Int

/-- `enum Dir` from `src/utils.rs`. -/
inductive Dir
  | Up
  | Down
  | Left
  | Right
deriving DecidableEq, Repr

/-- `impl Add<Dir> for Pos` from `src/utils.rs`. -/
def posAdd (p : Pos) (dir : Dir) : Pos :=
  match dir with
  | Dir.Up => (p.1, p.2 - 1)
  | Dir.Down => (p.1, p.2 + 1)
  | Dir.Left => (p.1 - 1, p.2)
  | Dir.Right => (p.1 + 1, p.2)

/-- `enum Tile` from `src/tiles.rs`.  The wood stage is a `u8` in the
source; digging only ever decreases it, so `Nat` is a faithful carrier. -/
inductive Tile
  | Empty
  | WallFull
  | WallHalf
  | WallLow
  | Wood (stage : Nat)
deriving DecidableEq, Repr

/-- `enum Item` from `src/items.rs`. -/
inductive Item
  | Wall
  | Wood
deriving DecidableEq, Repr

/-- `enum BreakResult` from `src/tiles.rs`. -/
inductive BreakResult
  | Tile (t : Tile)
  | Item (i : Item)
  | CannotBeBroken
deriving DecidableEq, Repr

/-- `Tile::breaks_into` from `src/tiles.rs`. -/
def Tile.breaks_into : Tile → BreakResult
  | Tile.WallFull => BreakResult.Tile Tile.WallHalf
  | Tile.WallHalf => BreakResult.Tile Tile.WallLow
  | Tile.WallLow => BreakResult.Item Item.Wall
  | Tile.Empty => BreakResult.CannotBeBroken
  | Tile.Wood 0 => BreakResult.Item Item.Wood
  | Tile.Wood (n + 1) => BreakResult.Tile (Tile.Wood n)

/-- `Tile::name` from `src/tiles.rs`. -/
def Tile.name : Tile → String
  | Tile.Empty => "empty"
  | Tile.WallFull => "wall"
  | Tile.WallHalf => "broken wall"
  | Tile.WallLow => "very broken wall"
  | Tile.Wood _ => "wood"

/-- `Item::name` from `src/items.rs`. -/
def Item.name : Item → String
  | Item.Wall => "wall"
  | Item.Wood => "wood"

/-- `Item::to_tile` from `src/items.rs`. -/
def Item.to_tile : Item → Option Tile
  | Item.Wall => some Tile.WallFull
  | Item.Wood => some (Tile.Wood 5)

/-- `enum IsShift` from `src/input.rs`. -/
inductive IsShift
  | Yes
  | No
deriving DecidableEq, Repr

namespace input

/-- `enum Input` exactly as declared in `src/input.rs`: it has the three
variants `Dir`, `Build`, `Quit` and no others. -/
inductive Input
  | Dir (dir : Dir) (shift : IsShift)
  | Build
  | Quit
deriving DecidableEq, Repr

end input

/-- The input vocabulary consumed by `State::on_input` in `src/lib.rs`
(and produced by `src/terminal_platform.rs`): the match arms there handle
`Dir`, `Build`, `Quit`, `OpenInventory` and `CloseMenu`.  Note that the
`Input` enum actually declared in `src/input.rs` (embedded above as
`input.Input`) lacks the last two variants. -/
inductive Input
  | Dir (dir : Dir) (shift : IsShift)
  | Build
  | Quit
  | OpenInventory
  | CloseMenu
deriving DecidableEq, Repr

/-- `enum Menu` from `src/lib.rs`. -/
inductive Menu
  | None
  | Inventory
deriving DecidableEq, Repr

/-- Association-list lookup: the first value stored under key `k`,
embedding `HashMap::get`. -/
def lookupKey {α β : Type} [DecidableEq α] (k : α) : List (α × β) → Option β
  | [] => none
  | e :: rest => if e.1 = k then some e.2 else lookupKey k rest

/-- Association-list insert-or-replace, embedding `HashMap::insert`: an
existing entry keeps its place in iteration order; a new key is appended. -/
def insertKey {α β : Type} [DecidableEq α] (l : List (α × β)) (k : α) (v : β) :
    List (α × β) :=
  if (lookupKey k l).isSome then
    l.map (fun e => if e.1 = k then (k, v) else e)
  else
    l ++ [(k, v)]

/-- Association-list removal of a key, embedding `HashMap::remove`. -/
def removeKey {α β : Type} [DecidableEq α] (l : List (α × β)) (k : α) :
    List (α × β) :=
  l.filter (fun e => decide (e.1 ≠ k))

/-- `struct Inventory` from `src/inventory.rs`: a `HashMap<Item, usize>`,
embedded as an association list in iteration order. -/
structure Inventory where
  items : List (Item × Nat)
deriving DecidableEq, Repr

/-- `struct HasNone` from `src/inventory.rs` (the error of `remove`). -/
inductive HasNone
  | mk
deriving DecidableEq, Repr

/-- `Inventory::new` from `src/inventory.rs`. -/
def Inventory.new : Inventory := ⟨[]⟩

/-- `Inventory::count_of` from `src/inventory.rs`. -/
def Inventory.count_of (inv : Inventory) (item : Item) : Nat :=
  (lookupKey item inv.items).getD 0

/-- `Inventory::insert` from `src/inventory.rs`:
`*self.items.entry(item).or_insert(0) += 1`. -/
def Inventory.insert (inv : Inventory) (item : Item) : Inventory :=
  ⟨if (lookupKey item inv.items).isSome then
     inv.items.map (fun e => if e.1 = item then (e.1, e.2 + 1) else e)
   else
     inv.items ++ [(item, 1)]⟩

/-- Outcome of `Inventory::remove`: `ok` carries the updated inventory,
`hasNone` carries the untouched inventory together with the `Err(HasNone)`
result, and `panic` is the `assert!(*count > 0)` failure. -/
inductive RemoveResult
  | ok (inv : Inventory)
  | hasNone (inv : Inventory)
  | panic
deriving DecidableEq, Repr

/-- `Inventory::remove` from `src/inventory.rs`. -/
def Inventory.remove (inv : Inventory) (item : Item) : RemoveResult :=
  match lookupKey item inv.items with
  | none => RemoveResult.hasNone inv
  | some count =>
    if count = 0 then RemoveResult.panic
    else if count - 1 = 0 then RemoveResult.ok ⟨removeKey inv.items item⟩
    else RemoveResult.ok ⟨inv.items.map
      (fun e => if e.1 = item then (e.1, e.2 - 1) else e)⟩

/-- The key list of the inventory map, in iteration order
(`self.items.keys()`). -/
def Inventory.keys (inv : Inventory) : List Item :=
  inv.items.map Prod.fst

/-- `Inventory::first` from `src/inventory.rs`: `self.items.keys().next()`. -/
def Inventory.first (inv : Inventory) : Option Item :=
  inv.keys.head?

/-- `Inventory::next` on a bare key list: `keys().skip_while(i ≠ item).nth(1)
.or_else(first)`; `none` is the `expect` panic on an empty inventory. -/
def nextOnKeys (ks : List Item) (item : Item) : Option Item :=
  (((ks.dropWhile (fun i => decide (i ≠ item))).drop 1).head?).orElse
    (fun _ => ks.head?)

/-- `Inventory::next` from `src/inventory.rs`. -/
def Inventory.next (inv : Inventory) (item : Item) : Option Item :=
  nextOnKeys inv.keys item

/-- The loop of `Inventory::prev`: walk the keys holding the previous one;
at the sought item return the held key, or the last key when none is held;
`none` embeds both panics (item absent / empty inventory). -/
def prevOnKeysGo (item : Item) (last : Option Item) :
    List Item → Option Item → Option Item
  | [], _ => none
  | i :: rest, prev =>
    if i = item then prev.orElse (fun _ => last)
    else prevOnKeysGo item last rest (some i)

/-- `Inventory::prev` on a bare key list. -/
def prevOnKeys (ks : List Item) (item : Item) : Option Item :=
  prevOnKeysGo item ks.getLast? ks none

/-- `Inventory::prev` from `src/inventory.rs`. -/
def Inventory.prev (inv : Inventory) (item : Item) : Option Item :=
  prevOnKeys inv.keys item

/-- `struct State` from `src/lib.rs`.  The `RefCell<HashMap<Pos, Tile>>`
tile store is the association list `tiles`; the procedural generator is
passed to the operations as the explicit parameter `gen`. -/
structure State where
  tiles : List (Pos × Tile)
  player_pos : Pos
  player_dir : Dir
  message : String
  inventory : Inventory
  menu : Menu
  selected_item : Option Item
deriving DecidableEq, Repr

/-- `State::new` from `src/lib.rs`. -/
def State.new : State :=
  { tiles := []
    player_pos := (0, 0)
    player_dir := Dir.Down
    message := ""
    inventory := Inventory.new
    menu := Menu.None
    selected_item := none }

/-- `State::get_tile` from `src/lib.rs`: the stored override if present,
else the generated tile. -/
def get_tile (gen : Pos → Tile) (s : State) (pos : Pos) : Tile :=
  (lookupKey pos s.tiles).getD (gen pos)

/-- `State::get_tile` in state-passing form: the tile store sits in a
`RefCell`, so the method could in principle write through `&self`; its
body only reads, so the state comes back untouched. -/
def get_tileM (gen : Pos → Tile) (s : State) (pos : Pos) : Tile × State :=
  ((lookupKey pos s.tiles).getD (gen pos), s)

/-- `State::set_tile` from `src/lib.rs`: writing the generated tile
removes the override, anything else inserts/replaces it. -/
def set_tile (gen : Pos → Tile) (s : State) (pos : Pos) (tile : Tile) : State :=
  if tile = gen pos then { s with tiles := removeKey s.tiles pos }
  else { s with tiles := insertKey s.tiles pos tile }

/-- The dig branch of `State::on_dir_input_no_menu` (`src/lib.rs`): apply
`breaks_into` to the target tile. -/
def applyBreak (gen : Pos → Tile) (s : State) (pos : Pos) (tile : Tile) : State :=
  match tile.breaks_into with
  | BreakResult.Tile t => set_tile gen s pos t
  | BreakResult.Item i =>
      set_tile gen { s with inventory := s.inventory.insert i } pos Tile.Empty
  | BreakResult.CannotBeBroken => s

/-- `State::on_dir_input_no_menu` from `src/lib.rs`.  `dir_same` is read
off `s` before the reorient, exactly as in the source. -/
def on_dir_input_no_menu (gen : Pos → Tile) (s : State) (dir : Dir)
    (shift : IsShift) : State :=
  let s1 := if shift = IsShift.No then { s with player_dir := dir } else s
  let new_pos := posAdd s1.player_pos dir
  if get_tile gen s1 new_pos = Tile.Empty then
    if shift = IsShift.Yes ∨ s.player_dir = dir then
      { s1 with player_pos := new_pos }
    else s1
  else if s.player_dir = dir then
    applyBreak gen s1 new_pos (get_tile gen s1 new_pos)
  else s1

/-- `State::on_dir_input_inventory` from `src/lib.rs`; `none` embeds the
panic inside `Inventory::next`/`prev` (empty inventory / absent item). -/
def on_dir_input_inventory (s : State) (dir : Dir) : Option State :=
  match s.selected_item with
  | some item =>
    match (if dir = Dir.Right ∨ dir = Dir.Down then s.inventory.next item
           else s.inventory.prev item) with
    | some item2 => some { s with selected_item := some item2 }
    | none => none
  | none => some { s with selected_item := s.inventory.first }

/-- `State::on_dir_input` from `src/lib.rs`. -/
def on_dir_input (gen : Pos → Tile) (s : State) (dir : Dir) (shift : IsShift) :
    Option State :=
  match s.menu with
  | Menu.None => some (on_dir_input_no_menu gen s dir shift)
  | Menu.Inventory => on_dir_input_inventory s dir

/-- `State::on_build` from `src/lib.rs`; `none` embeds the
`.expect("Item should be in the inventory")` panic. -/
def on_build (gen : Pos → Tile) (s : State) : Option State :=
  let build_pos := posAdd s.player_pos s.player_dir
  if get_tile gen s build_pos ≠ Tile.Empty then
    some { s with message := "You cannot build on existing tiles." }
  else
    match s.selected_item with
    | none => some { s with message := "You have no item selected to build." }
    | some selected_item =>
      match selected_item.to_tile with
      | none => some { s with
          message := "You cannot build a " ++ selected_item.name ++ "." }
      | some tile =>
        match s.inventory.remove selected_item with
        | RemoveResult.ok inv =>
            some (set_tile gen { s with inventory := inv } build_pos tile)
        | RemoveResult.hasNone _ => none
        | RemoveResult.panic => none

/-- `State::tick` from `src/lib.rs`. -/
def tick (gen : Pos → Tile) (s : State) : State :=
  let tile_in_front := get_tile gen s (posAdd s.player_pos s.player_dir)
  if s.message = "" ∧ tile_in_front ≠ Tile.Empty then
    { s with message := "You are facing a " ++ tile_in_front.name }
  else s

/-- Result of one call to `State::on_input`: the next state, termination
(`Quit` returns `None` in the source), or a panic inside the turn. -/
inductive StepResult
  | next (s : State)
  | quit
  | panic
deriving DecidableEq, Repr

/-- `State::on_input` from `src/lib.rs`: clear the message, dispatch on
the input, then `tick` (except for `Quit`, which returns before `tick`). -/
def on_input (gen : Pos → Tile) (s : State) (i : Input) : StepResult :=
  let s0 : State := { s with message := "" }
  match i with
  | Input.Dir dir shift =>
    match on_dir_input gen s0 dir shift with
    | some s1 => StepResult.next (tick gen s1)
    | none => StepResult.panic
  | Input.Build =>
    match on_build gen s0 with
    | some s1 => StepResult.next (tick gen s1)
    | none => StepResult.panic
  | Input.Quit => StepResult.quit
  | Input.OpenInventory => StepResult.next (tick gen { s0 with menu := Menu.Inventory })
  | Input.CloseMenu => StepResult.next (tick gen { s0 with menu := Menu.None })

/-- Outcome of feeding a whole input list through `State::on_input`, as
the game loop in `src/game_loop.rs` does turn by turn. -/
inductive Outcome
  | running (s : State)
  | quitted
  | panicked
deriving DecidableEq, Repr

/-- Run a list of inputs from a state, stopping at `Quit` or at a panic. -/
def runList (gen : Pos → Tile) (s : State) : List Input → Outcome
  | [] => Outcome.running s
  | i :: rest =>
    match on_input gen s i with
    | StepResult.next s1 => runList gen s1 rest
    | StepResult.quit => Outcome.quitted
    | StepResult.panic => Outcome.panicked

/-- A state is reachable when some input sequence drives the initial state
`State::new` to it. -/
def Reachable (gen : Pos → Tile) (s : State) : Prop :=
  ∃ l : List Input, runList gen State.new l = Outcome.running s

/-! ## Association-list lemmas -/

theorem lookupKey_map_adjust {α β : Type} [DecidableEq α] (k : α) (f : β → β) :
    ∀ l : List (α × β),
      lookupKey k (l.map fun e => if e.1 = k then (e.1, f e.2) else e) =
        Option.map f (lookupKey k l)
  | [] => rfl
  | e :: rest => by
    by_cases h : e.1 = k <;>
      simp [lookupKey, h, lookupKey_map_adjust k f rest]

theorem lookupKey_map_set {α β : Type} [DecidableEq α] (k : α) (v : β) :
    ∀ l : List (α × β),
      lookupKey k (l.map fun e => if e.1 = k then (k, v) else e) =
        Option.map (fun _ => v) (lookupKey k l)
  | [] => rfl
  | e :: rest => by
    by_cases h : e.1 = k <;>
      simp [lookupKey, h, lookupKey_map_set k v rest]

theorem lookupKey_map_adjust_ne {α β : Type} [DecidableEq α] {j k : α} (f : β → β)
    (hjk : j ≠ k) :
    ∀ l : List (α × β),
      lookupKey j (l.map fun e => if e.1 = k then (e.1, f e.2) else e) =
        lookupKey j l
  | [] => rfl
  | e :: rest => by
    have h3 : ¬ k = j := fun hc => hjk hc.symm
    by_cases h : e.1 = k
    · have h2 : ¬ e.1 = j := by rw [h]; exact h3
      simp [lookupKey, h, h2, h3, hjk, lookupKey_map_adjust_ne f hjk rest]
    · by_cases h2 : e.1 = j <;>
        simp [lookupKey, h, h2, h3, hjk, lookupKey_map_adjust_ne f hjk rest]

theorem lookupKey_map_set_ne {α β : Type} [DecidableEq α] {j k : α} (v : β)
    (hjk : j ≠ k) :
    ∀ l : List (α × β),
      lookupKey j (l.map fun e => if e.1 = k then (k, v) else e) = lookupKey j l
  | [] => rfl
  | e :: rest => by
    have h3 : ¬ k = j := fun hc => hjk hc.symm
    by_cases h : e.1 = k
    · have h2 : ¬ e.1 = j := by rw [h]; exact h3
      simp [lookupKey, h, h2, h3, hjk, lookupKey_map_set_ne v hjk rest]
    · by_cases h2 : e.1 = j <;>
        simp [lookupKey, h, h2, h3, hjk, lookupKey_map_set_ne v hjk rest]

theorem lookupKey_append_single_self {α β : Type} [DecidableEq α] {k : α} (v : β) :
    ∀ l : List (α × β), lookupKey k (l ++ [(k, v)]) = (lookupKey k l).orElse
      (fun _ => some v)
  | [] => by simp [lookupKey]
  | e :: rest => by
    by_cases h : e.1 = k <;>
      simp [lookupKey, h, lookupKey_append_single_self v rest]

theorem lookupKey_append_single_ne {α β : Type} [DecidableEq α] {j k : α} (v : β)
    (hjk : j ≠ k) :
    ∀ l : List (α × β), lookupKey j (l ++ [(k, v)]) = lookupKey j l
  | [] => by
    have : ¬ k = j := fun hc => hjk hc.symm
    simp [lookupKey, this]
  | e :: rest => by
    by_cases h : e.1 = j <;>
      simp [lookupKey, h, lookupKey_append_single_ne v hjk rest]

theorem lookupKey_insertKey_self {α β : Type} [DecidableEq α] (l : List (α × β))
    (k : α) (v : β) : lookupKey k (insertKey l k v) = some v := by
  unfold insertKey
  by_cases h : (lookupKey k l).isSome
  · rcases Option.isSome_iff_exists.mp h with ⟨w, hw⟩
    simp [h, lookupKey_map_set k v l, hw]
  · have hnone : lookupKey k l = none := Option.not_isSome_iff_eq_none.mp h
    simp [h, lookupKey_append_single_self v l, hnone]

theorem lookupKey_insertKey_ne {α β : Type} [DecidableEq α] (l : List (α × β))
    {j k : α} (v : β) (hjk : j ≠ k) :
    lookupKey j (insertKey l k v) = lookupKey j l := by
  unfold insertKey
  by_cases h : (lookupKey k l).isSome <;>
    simp [h, lookupKey_map_set_ne v hjk l, lookupKey_append_single_ne v hjk l]

theorem removeKey_cons {α β : Type} [DecidableEq α] (e : α × β)
    (rest : List (α × β)) (k : α) :
    removeKey (e :: rest) k =
      if e.1 = k then removeKey rest k else e :: removeKey rest k := by
  by_cases h : e.1 = k <;> simp [removeKey, List.filter_cons, h]

theorem lookupKey_removeKey_self {α β : Type} [DecidableEq α] (k : α) :
    ∀ l : List (α × β), lookupKey k (removeKey l k) = none
  | [] => rfl
  | e :: rest => by
    rw [removeKey_cons]
    by_cases h : e.1 = k <;>
      simp [h, lookupKey, lookupKey_removeKey_self k rest]

theorem lookupKey_removeKey_ne {α β : Type} [DecidableEq α] {j k : α} (hjk : j ≠ k) :
    ∀ l : List (α × β), lookupKey j (removeKey l k) = lookupKey j l
  | [] => rfl
  | e :: rest => by
    rw [removeKey_cons]
    have h3 : ¬ k = j := fun hc => hjk hc.symm
    by_cases h : e.1 = k
    · have h2 : ¬ e.1 = j := by rw [h]; exact h3
      simp [h, lookupKey, h2, h3, hjk, lookupKey_removeKey_ne hjk rest]
    · by_cases h2 : e.1 = j <;>
        simp [h, lookupKey, h2, h3, hjk, lookupKey_removeKey_ne hjk rest]

theorem mem_insertKey {α β : Type} [DecidableEq α] {l : List (α × β)} {k : α}
    {v : β} {e : α × β} (he : e ∈ insertKey l k v) : e = (k, v) ∨ e ∈ l := by
  unfold insertKey at he
  by_cases h : (lookupKey k l).isSome
  · rw [if_pos h] at he
    rcases List.mem_map.mp he with ⟨a, ha, hae⟩
    by_cases hk : a.1 = k
    · left; rw [if_pos hk] at hae; exact hae.symm
    · right; rw [if_neg hk] at hae; exact hae ▸ ha
  · rw [if_neg h] at he
    rcases List.mem_append.mp he with ha | ha
    · right; exact ha
    · left; simpa using ha

theorem mem_removeKey {α β : Type} [DecidableEq α] {l : List (α × β)} {k : α}
    {e : α × β} (he : e ∈ removeKey l k) : e ∈ l ∧ e.1 ≠ k := by
  refine ⟨List.mem_of_mem_filter he, ?_⟩
  have := List.of_mem_filter he
  simpa using this

theorem lookupKey_mem {α β : Type} [DecidableEq α] {k : α} {v : β} :
    ∀ {l : List (α × β)}, lookupKey k l = some v → (k, v) ∈ l
  | [], h => by simp [lookupKey] at h
  | e :: rest, h => by
    by_cases hk : e.1 = k
    · simp only [lookupKey, if_pos hk] at h
      obtain ⟨e1, e2⟩ := e
      obtain rfl : e1 = k := hk
      obtain rfl : e2 = v := by simpa using h
      exact List.mem_cons_self _ _
    · simp only [lookupKey, if_neg hk] at h
      exact List.mem_cons_of_mem _ (lookupKey_mem h)

theorem lookupKey_of_mem_nodup {α β : Type} [DecidableEq α] {e : α × β} :
    ∀ {l : List (α × β)}, (l.map Prod.fst).Nodup → e ∈ l →
      lookupKey e.1 l = some e.2
  | [], _, he => by simp at he
  | a :: rest, hnd, he => by
    rcases List.mem_cons.mp he with rfl | hmem
    · simp [lookupKey]
    · have hnd2 : (rest.map Prod.fst).Nodup := (List.nodup_cons.mp hnd).2
      have hne : ¬ a.1 = e.1 := by
        intro hc
        have : a.1 ∉ rest.map Prod.fst := (List.nodup_cons.mp hnd).1
        exact this (hc ▸ List.mem_map_of_mem Prod.fst hmem)
      simp [lookupKey, hne, lookupKey_of_mem_nodup hnd2 hmem]

theorem map_fst_map_adjust {α β : Type} [DecidableEq α] (k : α) (f : β → β) :
    ∀ l : List (α × β),
      ((l.map fun e => if e.1 = k then (e.1, f e.2) else e).map Prod.fst) =
        l.map Prod.fst
  | [] => rfl
  | e :: rest => by
    by_cases h : e.1 = k <;>
      simp [h, map_fst_map_adjust k f rest]

theorem nodup_keys_removeKey {α β : Type} [DecidableEq α] {l : List (α × β)}
    (k : α) (h : (l.map Prod.fst).Nodup) :
    ((removeKey l k).map Prod.fst).Nodup :=
  ((List.filter_sublist l).map Prod.fst).nodup h

/-! ## Projection lemmas for the state operations -/

theorem set_tile_player_pos (gen : Pos → Tile) (s : State) (pos : Pos) (tile : Tile) :
    (set_tile gen s pos tile).player_pos = s.player_pos := by
  unfold set_tile; split <;> rfl

theorem set_tile_player_dir (gen : Pos → Tile) (s : State) (pos : Pos) (tile : Tile) :
    (set_tile gen s pos tile).player_dir = s.player_dir := by
  unfold set_tile; split <;> rfl

theorem set_tile_message (gen : Pos → Tile) (s : State) (pos : Pos) (tile : Tile) :
    (set_tile gen s pos tile).message = s.message := by
  unfold set_tile; split <;> rfl

theorem set_tile_inventory (gen : Pos → Tile) (s : State) (pos : Pos) (tile : Tile) :
    (set_tile gen s pos tile).inventory = s.inventory := by
  unfold set_tile; split <;> rfl

theorem set_tile_menu (gen : Pos → Tile) (s : State) (pos : Pos) (tile : Tile) :
    (set_tile gen s pos tile).menu = s.menu := by
  unfold set_tile; split <;> rfl

theorem set_tile_selected_item (gen : Pos → Tile) (s : State) (pos : Pos) (tile : Tile) :
    (set_tile gen s pos tile).selected_item = s.selected_item := by
  unfold set_tile; split <;> rfl

theorem set_tile_tiles (gen : Pos → Tile) (s : State) (pos : Pos) (tile : Tile) :
    (set_tile gen s pos tile).tiles =
      if tile = gen pos then removeKey s.tiles pos
      else insertKey s.tiles pos tile := by
  unfold set_tile; split <;> simp_all

theorem tick_tiles (gen : Pos → Tile) (s : State) : (tick gen s).tiles = s.tiles := by
  simp only [tick]; split <;> rfl

theorem tick_player_pos (gen : Pos → Tile) (s : State) :
    (tick gen s).player_pos = s.player_pos := by
  simp only [tick]; split <;> rfl

theorem tick_player_dir (gen : Pos → Tile) (s : State) :
    (tick gen s).player_dir = s.player_dir := by
  simp only [tick]; split <;> rfl

theorem tick_inventory (gen : Pos → Tile) (s : State) :
    (tick gen s).inventory = s.inventory := by
  simp only [tick]; split <;> rfl

theorem tick_menu (gen : Pos → Tile) (s : State) : (tick gen s).menu = s.menu := by
  simp only [tick]; split <;> rfl

theorem tick_selected_item (gen : Pos → Tile) (s : State) :
    (tick gen s).selected_item = s.selected_item := by
  simp only [tick]; split <;> rfl

theorem applyBreak_player_pos (gen : Pos → Tile) (s : State) (pos : Pos) (t : Tile) :
    (applyBreak gen s pos t).player_pos = s.player_pos := by
  unfold applyBreak
  cases t.breaks_into <;> simp [set_tile_player_pos]

theorem applyBreak_player_dir (gen : Pos → Tile) (s : State) (pos : Pos) (t : Tile) :
    (applyBreak gen s pos t).player_dir = s.player_dir := by
  unfold applyBreak
  cases t.breaks_into <;> simp [set_tile_player_dir]

theorem applyBreak_menu (gen : Pos → Tile) (s : State) (pos : Pos) (t : Tile) :
    (applyBreak gen s pos t).menu = s.menu := by
  unfold applyBreak
  cases t.breaks_into <;> simp [set_tile_menu]

theorem applyBreak_selected_item (gen : Pos → Tile) (s : State) (pos : Pos) (t : Tile) :
    (applyBreak gen s pos t).selected_item = s.selected_item := by
  unfold applyBreak
  cases t.breaks_into <;> simp [set_tile_selected_item]

theorem applyBreak_message (gen : Pos → Tile) (s : State) (pos : Pos) (t : Tile) :
    (applyBreak gen s pos t).message = s.message := by
  unfold applyBreak
  cases t.breaks_into <;> simp [set_tile_message]

/-- `get_tile` only reads the tile store, so two states with equal stores
agree on every read. -/
theorem get_tile_congr (gen : Pos → Tile) {s s' : State} (h : s'.tiles = s.tiles)
    (pos : Pos) : get_tile gen s' pos = get_tile gen s pos := by
  unfold get_tile; rw [h]

/-- Reading back the position just written returns the written tile. -/
theorem get_tile_set_tile_same (gen : Pos → Tile) (s : State) (pos : Pos)
    (tile : Tile) : get_tile gen (set_tile gen s pos tile) pos = tile := by
  unfold get_tile
  rw [set_tile_tiles]
  by_cases h : tile = gen pos
  · rw [if_pos h, lookupKey_removeKey_self, Option.getD_none, h]
  · rw [if_neg h, lookupKey_insertKey_self, Option.getD_some]

/-- Writing one position never changes the value read at another. -/
theorem get_tile_set_tile_ne (gen : Pos → Tile) (s : State) {pos pos2 : Pos}
    (hne : pos2 ≠ pos) (tile : Tile) :
    get_tile gen (set_tile gen s pos tile) pos2 = get_tile gen s pos2 := by
  unfold get_tile
  rw [set_tile_tiles]
  by_cases h : tile = gen pos
  · rw [if_pos h, lookupKey_removeKey_ne hne]
  · rw [if_neg h, lookupKey_insertKey_ne _ _ hne]

/-! ## Inventory count lemmas -/

theorem count_of_insert_self (inv : Inventory) (i : Item) :
    (inv.insert i).count_of i = inv.count_of i + 1 := by
  unfold Inventory.insert Inventory.count_of
  by_cases h : (lookupKey i inv.items).isSome
  · rcases Option.isSome_iff_exists.mp h with ⟨w, hw⟩
    simp [h, lookupKey_map_adjust i (· + 1) inv.items, hw]
  · have hnone : lookupKey i inv.items = none := Option.not_isSome_iff_eq_none.mp h
    simp [h, lookupKey_append_single_self 1 inv.items, hnone]

theorem count_of_insert_ne (inv : Inventory) {i j : Item} (hne : j ≠ i) :
    (inv.insert i).count_of j = inv.count_of j := by
  unfold Inventory.insert Inventory.count_of
  by_cases h : (lookupKey i inv.items).isSome <;>
    simp [h, lookupKey_map_adjust_ne (· + 1) hne inv.items,
      lookupKey_append_single_ne 1 hne inv.items]

/-! ## Branch lemmas for the turn resolver -/

theorem on_input_dir_none (gen : Pos → Tile) (s : State) (d : Dir) (shift : IsShift)
    (hmenu : s.menu = Menu.None) :
    on_input gen s (Input.Dir d shift) =
      StepResult.next (tick gen
        (on_dir_input_no_menu gen { s with message := "" } d shift)) := by
  simp only [on_input, on_dir_input]
  rw [hmenu]

theorem odinm_move (gen : Pos → Tile) (s : State) (d : Dir) (shift : IsShift)
    (ht : get_tile gen s (posAdd s.player_pos d) = Tile.Empty)
    (hmv : shift = IsShift.Yes ∨ s.player_dir = d) :
    on_dir_input_no_menu gen s d shift =
      { (if shift = IsShift.No then { s with player_dir := d } else s) with
        player_pos := posAdd s.player_pos d } := by
  cases shift with
  | Yes => simp [on_dir_input_no_menu, ht]
  | No =>
    have hd : s.player_dir = d := by
      rcases hmv with h | h
      · exact absurd h (by simp)
      · exact h
    have ht2 : get_tile gen ({ s with player_dir := d } : State)
        (posAdd s.player_pos d) = Tile.Empty := ht
    simp [on_dir_input_no_menu, ht2, hd]

theorem odinm_stay (gen : Pos → Tile) (s : State) (d : Dir)
    (ht : get_tile gen s (posAdd s.player_pos d) = Tile.Empty)
    (hdiff : s.player_dir ≠ d) :
    on_dir_input_no_menu gen s d IsShift.No = { s with player_dir := d } := by
  have ht2 : get_tile gen ({ s with player_dir := d } : State)
      (posAdd s.player_pos d) = Tile.Empty := ht
  simp [on_dir_input_no_menu, ht2, hdiff]

theorem odinm_dig (gen : Pos → Tile) (s : State) (d : Dir) (shift : IsShift)
    (t : Tile) (ht : get_tile gen s (posAdd s.player_pos d) = t)
    (hne : t ≠ Tile.Empty) (hd : s.player_dir = d) :
    on_dir_input_no_menu gen s d shift =
      applyBreak gen s (posAdd s.player_pos d) t := by
  subst hd
  cases shift with
  | Yes => simp [on_dir_input_no_menu, ht, hne]
  | No =>
    have ht2 : get_tile gen ({ s with player_dir := s.player_dir } : State)
        (posAdd s.player_pos s.player_dir) = t := ht
    simp [on_dir_input_no_menu, ht2, hne]

theorem odinm_nodig (gen : Pos → Tile) (s : State) (d : Dir) (shift : IsShift)
    (t : Tile) (ht : get_tile gen s (posAdd s.player_pos d) = t)
    (hne : t ≠ Tile.Empty) (hdiff : s.player_dir ≠ d) :
    on_dir_input_no_menu gen s d shift =
      if shift = IsShift.No then { s with player_dir := d } else s := by
  cases shift with
  | Yes => simp [on_dir_input_no_menu, ht, hne, hdiff]
  | No =>
    have ht2 : get_tile gen ({ s with player_dir := d } : State)
        (posAdd s.player_pos d) = t := ht
    simp [on_dir_input_no_menu, ht2, hne, hdiff]

theorem on_input_build (gen : Pos → Tile) (s : State) :
    on_input gen s Input.Build =
      match on_build gen { s with message := "" } with
      | some s1 => StepResult.next (tick gen s1)
      | none => StepResult.panic := by
  simp only [on_input]

theorem on_build_blocked (gen : Pos → Tile) (s : State)
    (h : get_tile gen s (posAdd s.player_pos s.player_dir) ≠ Tile.Empty) :
    on_build gen s = some { s with message := "You cannot build on existing tiles." } := by
  simp [on_build, h]

theorem on_build_no_selection (gen : Pos → Tile) (s : State)
    (hE : get_tile gen s (posAdd s.player_pos s.player_dir) = Tile.Empty)
    (hsel : s.selected_item = none) :
    on_build gen s = some { s with message := "You have no item selected to build." } := by
  simp [on_build, hE, hsel]

theorem on_build_success (gen : Pos → Tile) (s : State) (it : Item) (tile : Tile)
    (inv : Inventory)
    (hE : get_tile gen s (posAdd s.player_pos s.player_dir) = Tile.Empty)
    (hsel : s.selected_item = some it) (htile : it.to_tile = some tile)
    (hrem : s.inventory.remove it = RemoveResult.ok inv) :
    on_build gen s = some (set_tile gen { s with inventory := inv }
      (posAdd s.player_pos s.player_dir) tile) := by
  simp [on_build, hE, hsel, htile, hrem]

theorem on_build_panic (gen : Pos → Tile) (s : State) (it : Item) (tile : Tile)
    (inv : Inventory)
    (hE : get_tile gen s (posAdd s.player_pos s.player_dir) = Tile.Empty)
    (hsel : s.selected_item = some it) (htile : it.to_tile = some tile)
    (hrem : s.inventory.remove it = RemoveResult.hasNone inv) :
    on_build gen s = none := by
  simp [on_build, hE, hsel, htile, hrem]

theorem on_input_open_inventory (gen : Pos → Tile) (s : State) :
    on_input gen s Input.OpenInventory =
      StepResult.next (tick gen { s with message := "", menu := Menu.Inventory }) := by
  simp only [on_input]

theorem on_input_close_menu (gen : Pos → Tile) (s : State) :
    on_input gen s Input.CloseMenu =
      StepResult.next (tick gen { s with message := "", menu := Menu.None }) := by
  simp only [on_input]

theorem tick_of_message_ne (gen : Pos → Tile) (s : State) (h : s.message ≠ "") :
    tick gen s = s := by
  simp [tick, h]

/-! ## Claim C10: reads never mutate the store -/

/-- C10: `State::get_tile` never mutates the world store: in state-passing
form it returns the tile of the pure read together with the state exactly
as it was, so generated tiles are never cached into the override map on
read. -/
theorem getTile_never_mutates (gen : Pos → Tile) (s : State) (pos : Pos) :
    get_tileM gen s pos = (get_tile gen s pos, s) := rfl

/-! ## Claim C4: store canonicalization round-trip -/

/-- C4: immediately after `set_tile(pos, tile)`, `get_tile(pos)` returns
`tile`; and if `tile` is the procedurally generated tile for `pos`, the
store afterwards holds no entry at `pos` and has not grown. -/
theorem setTile_roundtrip (gen : Pos → Tile) (s : State) (pos : Pos) (tile : Tile) :
    get_tile gen (set_tile gen s pos tile) pos = tile ∧
    (tile = gen pos →
      (∀ e ∈ (set_tile gen s pos tile).tiles, e.1 ≠ pos) ∧
      lookupKey pos (set_tile gen s pos tile).tiles = none ∧
      (set_tile gen s pos tile).tiles.length ≤ s.tiles.length) := by
  refine ⟨get_tile_set_tile_same gen s pos tile, fun hgen => ?_⟩
  refine ⟨?_, ?_, ?_⟩
  · intro e he
    rw [set_tile_tiles, if_pos hgen] at he
    exact (mem_removeKey he).2
  · rw [set_tile_tiles, if_pos hgen]
    exact lookupKey_removeKey_self pos s.tiles
  · rw [set_tile_tiles, if_pos hgen]
    exact List.length_filter_le _ _

/-- All-empty generator used to instantiate hypothesis-bearing theorems. -/
def genEmpty : Pos → Tile := fun _ => Tile.Empty

/-- Generator whose only wall sits directly below the spawn position. -/
def genWallBelow : Pos → Tile := fun p =>
  if p = ((0 : Int), (1 : Int)) then Tile.WallFull else Tile.Empty

/-- Witness for C4: instantiating `setTile_roundtrip` at a concrete store,
position and generated tile discharges its inner hypothesis. -/
theorem setTile_roundtrip_witness :
    get_tile genEmpty (set_tile genEmpty State.new ((2 : Int), (3 : Int)) Tile.Empty)
        ((2 : Int), (3 : Int)) = Tile.Empty ∧
    (∀ e ∈ (set_tile genEmpty State.new ((2 : Int), (3 : Int)) Tile.Empty).tiles,
      e.1 ≠ ((2 : Int), (3 : Int))) ∧
    lookupKey ((2 : Int), (3 : Int))
      (set_tile genEmpty State.new ((2 : Int), (3 : Int)) Tile.Empty).tiles = none ∧
    (set_tile genEmpty State.new ((2 : Int), (3 : Int)) Tile.Empty).tiles.length ≤
      State.new.tiles.length := by
  obtain ⟨h1, h2⟩ := setTile_roundtrip genEmpty State.new ((2 : Int), (3 : Int))
    Tile.Empty
  exact ⟨h1, h2 rfl⟩

/-! ## Claim C9: the input vocabulary -/

/-- C9: the `Input` enum declared in `src/input.rs` covers only the three
variants `Dir`, `Build`, `Quit` — it lacks `OpenInventory` and `CloseMenu`
— while the resolver `State::on_input` in `src/lib.rs` consumes the
five-variant vocabulary, with `OpenInventory` setting `menu = Inventory`
and `CloseMenu` setting `menu = None`. -/
theorem inputVocabulary :
    (∀ i : input.Input,
      (∃ d shift, i = input.Input.Dir d shift) ∨ i = input.Input.Build ∨
        i = input.Input.Quit) ∧
    (∀ (gen : Pos → Tile) (s : State), ∃ s',
      on_input gen s Input.OpenInventory = StepResult.next s' ∧
        s'.menu = Menu.Inventory) ∧
    (∀ (gen : Pos → Tile) (s : State), ∃ s',
      on_input gen s Input.CloseMenu = StepResult.next s' ∧
        s'.menu = Menu.None) ∧
    (∀ (gen : Pos → Tile) (s : State), on_input gen s Input.Quit = StepResult.quit) := by
  refine ⟨?_, ?_, ?_, ?_⟩
  · intro i
    cases i with
    | Dir d shift => exact Or.inl ⟨d, shift, rfl⟩
    | Build => exact Or.inr (Or.inl rfl)
    | Quit => exact Or.inr (Or.inr rfl)
  · intro gen s
    refine ⟨_, on_input_open_inventory gen s, ?_⟩
    rw [tick_menu]
  · intro gen s
    refine ⟨_, on_input_close_menu gen s, ?_⟩
    rw [tick_menu]
  · intro gen s
    rfl

/-! ## Claim C7: inventory removal -/

/-- The `HashMap<Item, usize>` representation invariant: distinct keys,
and (per the inventory's own documented invariant) every stored count is
positive. -/
def Inventory.WF (inv : Inventory) : Prop :=
  inv.keys.Nodup ∧ ∀ e ∈ inv.items, 0 < e.2

instance (inv : Inventory) : Decidable inv.WF := by
  unfold Inventory.WF
  infer_instance

theorem count_of_zero_lookup_none {inv : Inventory} {item : Item} (hwf : inv.WF)
    (h : inv.count_of item = 0) : lookupKey item inv.items = none := by
  rcases hl : lookupKey item inv.items with _ | v
  · rfl
  · exfalso
    have hv : 0 < v := hwf.2 _ (lookupKey_mem hl)
    have hc : inv.count_of item = v := by
      unfold Inventory.count_of
      rw [hl, Option.getD_some]
    omega

/-- C7: under the representation invariant, `Inventory::remove` fails with
`HasNone` exactly when the count is zero — leaving the inventory untouched
— and otherwise succeeds, decrementing the count by one, deleting the
entry when the count reaches zero, preserving the invariant, and never
hitting the `assert!` panic. -/
theorem remove_spec (inv : Inventory) (item : Item) (hwf : inv.WF) :
    (inv.count_of item = 0 → inv.remove item = RemoveResult.hasNone inv) ∧
    (0 < inv.count_of item → ∃ inv',
      inv.remove item = RemoveResult.ok inv' ∧
      inv'.count_of item + 1 = inv.count_of item ∧
      (inv.count_of item = 1 → lookupKey item inv'.items = none) ∧
      inv'.WF) ∧
    inv.remove item ≠ RemoveResult.panic := by
  have hmain : (inv.count_of item = 0 → inv.remove item = RemoveResult.hasNone inv) ∧
      (0 < inv.count_of item → ∃ inv',
        inv.remove item = RemoveResult.ok inv' ∧
        inv'.count_of item + 1 = inv.count_of item ∧
        (inv.count_of item = 1 → lookupKey item inv'.items = none) ∧
        inv'.WF) := by
    constructor
    · intro h0
      have hl := count_of_zero_lookup_none hwf h0
      unfold Inventory.remove
      rw [hl]
    · intro hpos
      rcases hl : lookupKey item inv.items with _ | c
      · exfalso
        have hc : inv.count_of item = 0 := by
          unfold Inventory.count_of
          rw [hl, Option.getD_none]
        omega
      · have hc : inv.count_of item = c := by
          unfold Inventory.count_of
          rw [hl, Option.getD_some]
        have hcpos : 0 < c := hc ▸ hpos
        by_cases h1 : c - 1 = 0
        · -- the count was 1: the entry is deleted outright
          refine ⟨⟨removeKey inv.items item⟩, ?_, ?_, ?_, ?_⟩
          · simp only [Inventory.remove, hl]
            rw [if_neg (show ¬ c = 0 by omega), if_pos h1]
          · have h2 : (Inventory.mk (removeKey inv.items item)).count_of item = 0 := by
              show (lookupKey item (removeKey inv.items item)).getD 0 = 0
              rw [lookupKey_removeKey_self]
              rfl
            rw [h2, hc]
            omega
          · intro _
            exact lookupKey_removeKey_self item inv.items
          · refine ⟨nodup_keys_removeKey item hwf.1, fun e he => ?_⟩
            exact hwf.2 _ (mem_removeKey he).1
        · -- the count was at least 2: it is decremented in place
          refine ⟨⟨inv.items.map fun e => if e.1 = item then (e.1, e.2 - 1) else e⟩,
            ?_, ?_, ?_, ?_⟩
          · simp only [Inventory.remove, hl]
            rw [if_neg (show ¬ c = 0 by omega), if_neg h1]
          · have h2 : (Inventory.mk (inv.items.map
                fun e => if e.1 = item then (e.1, e.2 - 1) else e)).count_of item =
                c - 1 := by
              show (lookupKey item (inv.items.map
                fun e => if e.1 = item then (e.1, e.2 - 1) else e)).getD 0 = c - 1
              rw [lookupKey_map_adjust item (· - 1) inv.items, hl]
              rfl
            rw [h2, hc]
            omega
          · intro hone
            omega
          · constructor
            · show ((inv.items.map fun e => if e.1 = item then (e.1, e.2 - 1) else e).map
                Prod.fst).Nodup
              rw [map_fst_map_adjust item (· - 1) inv.items]
              exact hwf.1
            · intro e he
              rcases List.mem_map.mp he with ⟨a, ha, hae⟩
              by_cases hk : a.1 = item
              · rw [if_pos hk] at hae
                have hla : lookupKey a.1 inv.items = some a.2 :=
                  lookupKey_of_mem_nodup hwf.1 ha
                rw [hk, hl] at hla
                have ha2 : a.2 = c := by
                  injection hla.symm
                subst hae
                show 0 < a.2 - 1
                omega
              · rw [if_neg hk] at hae
                exact hae ▸ hwf.2 _ ha
  refine ⟨hmain.1, hmain.2, ?_⟩
  by_cases h0 : inv.count_of item = 0
  · rw [hmain.1 h0]
    intro hc
    cases hc
  · rcases hmain.2 (by omega) with ⟨inv', heq, _⟩
    rw [heq]
    intro hc
    cases hc

/-- Witness for C7 at a concrete inventory holding one wall and two wood. -/
theorem remove_spec_witness :
    (Inventory.mk [(Item.Wall, 1), (Item.Wood, 2)]).WF ∧
    ((Inventory.mk [(Item.Wall, 1), (Item.Wood, 2)]).count_of Item.Wall = 0 →
      (Inventory.mk [(Item.Wall, 1), (Item.Wood, 2)]).remove Item.Wall =
        RemoveResult.hasNone (Inventory.mk [(Item.Wall, 1), (Item.Wood, 2)])) ∧
    (0 < (Inventory.mk [(Item.Wall, 1), (Item.Wood, 2)]).count_of Item.Wall →
      ∃ inv', (Inventory.mk [(Item.Wall, 1), (Item.Wood, 2)]).remove Item.Wall =
          RemoveResult.ok inv' ∧
        inv'.count_of Item.Wall + 1 =
          (Inventory.mk [(Item.Wall, 1), (Item.Wood, 2)]).count_of Item.Wall ∧
        ((Inventory.mk [(Item.Wall, 1), (Item.Wood, 2)]).count_of Item.Wall = 1 →
          lookupKey Item.Wall inv'.items = none) ∧
        inv'.WF) ∧
    (Inventory.mk [(Item.Wall, 1), (Item.Wood, 2)]).remove Item.Wall ≠
      RemoveResult.panic := by
  refine ⟨by decide, ?_⟩
  exact remove_spec (Inventory.mk [(Item.Wall, 1), (Item.Wood, 2)]) Item.Wall
    (by decide)

/-! ## Claim C8: cyclic inventory navigation -/

/-- Index of the first occurrence of an item in a key list. -/
def idxOfItem (a : Item) : List Item → Nat
  | [] => 0
  | b :: rest => if b = a then 0 else idxOfItem a rest + 1

/-- Formalization of the spec side of the claim: the cyclic successor of
`a` in iteration order — the entry one past `a`, wrapping past the last
entry. -/
def cyclicSuccSpec (ks : List Item) (a : Item) : Option Item :=
  ks[(idxOfItem a ks + 1) % ks.length]?

/-- Formalization of the spec side of the claim: the cyclic predecessor of
`a` in iteration order — the entry one before `a`, wrapping past the first
entry. -/
def cyclicPredSpec (ks : List Item) (a : Item) : Option Item :=
  ks[(idxOfItem a ks + ks.length - 1) % ks.length]?

/-- With only two item kinds in the game, a duplicate-free key list has
one of five shapes. -/
theorem nodup_item_list_cases (l : List Item) (h : l.Nodup) :
    l = [] ∨ l = [Item.Wall] ∨ l = [Item.Wood] ∨
    l = [Item.Wall, Item.Wood] ∨ l = [Item.Wood, Item.Wall] := by
  match l with
  | [] => exact Or.inl rfl
  | [a] =>
    cases a
    · exact Or.inr (Or.inl rfl)
    · exact Or.inr (Or.inr (Or.inl rfl))
  | [a, b] =>
    cases a <;> cases b <;>
      first
        | exact absurd h (by decide)
        | decide
  | a :: b :: c :: rest =>
    exfalso
    have ha : a ∉ b :: c :: rest := (List.nodup_cons.mp h).1
    have hb : b ∉ c :: rest := (List.nodup_cons.mp (List.nodup_cons.mp h).2).1
    cases a <;> cases b <;> cases c <;> simp_all

/-- C8: for every item present in a duplicate-free inventory, `next`
returns its cyclic successor and `prev` its cyclic predecessor in
iteration order, wrapping past the last/first entry. -/
theorem cyclic_navigation (inv : Inventory) (item : Item)
    (hnd : inv.keys.Nodup) (hmem : item ∈ inv.keys) :
    inv.next item = cyclicSuccSpec inv.keys item ∧
    inv.prev item = cyclicPredSpec inv.keys item := by
  show nextOnKeys inv.keys item = cyclicSuccSpec inv.keys item ∧
    prevOnKeys inv.keys item = cyclicPredSpec inv.keys item
  rcases nodup_item_list_cases inv.keys hnd with h | h | h | h | h <;>
    rw [h] at hmem ⊢ <;> cases item <;>
      first
        | exact absurd hmem (by decide)
        | decide

/-- Witness for C8 at the inventory `[(Wall, 1), (Wood, 2)]`: `next` and
`prev` both wrap to the other item. -/
theorem cyclic_navigation_witness :
    (Inventory.mk [(Item.Wall, 1), (Item.Wood, 2)]).keys.Nodup ∧
    Item.Wall ∈ (Inventory.mk [(Item.Wall, 1), (Item.Wood, 2)]).keys ∧
    ((Inventory.mk [(Item.Wall, 1), (Item.Wood, 2)]).next Item.Wall =
      cyclicSuccSpec (Inventory.mk [(Item.Wall, 1), (Item.Wood, 2)]).keys Item.Wall ∧
    (Inventory.mk [(Item.Wall, 1), (Item.Wood, 2)]).prev Item.Wall =
      cyclicPredSpec (Inventory.mk [(Item.Wall, 1), (Item.Wood, 2)]).keys Item.Wall) := by
  refine ⟨by decide, by decide, ?_⟩
  exact cyclic_navigation (Inventory.mk [(Item.Wall, 1), (Item.Wood, 2)]) Item.Wall
    (by decide) (by decide)

/-! ## Claim C3: movement, reorientation and dig gating -/

/-- The store after a dig depends only on the store dug into. -/
theorem applyBreak_tiles_congr (gen : Pos → Tile) (pos : Pos) (t : Tile)
    {s s' : State} (ht : s'.tiles = s.tiles) :
    (applyBreak gen s' pos t).tiles = (applyBreak gen s pos t).tiles := by
  unfold applyBreak
  cases t.breaks_into with
  | Tile t2 => rw [set_tile_tiles, set_tile_tiles, ht]
  | Item i => simp only [set_tile_tiles]; rw [ht]
  | CannotBeBroken => exact ht

/-- The inventory after a dig depends only on the inventory dug with. -/
theorem applyBreak_inventory_congr (gen : Pos → Tile) (pos : Pos) (t : Tile)
    {s s' : State} (hi : s'.inventory = s.inventory) :
    (applyBreak gen s' pos t).inventory = (applyBreak gen s pos t).inventory := by
  unfold applyBreak
  cases t.breaks_into with
  | Tile t2 => rw [set_tile_inventory, set_tile_inventory, hi]
  | Item i => simp only [set_tile_inventory]; rw [hi]
  | CannotBeBroken => exact hi

/-- Stepping one cell in any direction leaves the current position. -/
theorem posAdd_ne (p : Pos) (d : Dir) : posAdd p d ≠ p := by
  cases d <;>
    · intro hc
      rw [Prod.ext_iff] at hc
      obtain ⟨h1, h2⟩ := hc
      simp only [posAdd] at h1 h2
      omega

/-- C3: with no menu open, `Dir(d, shift)` (1) reorients to `d` exactly
when `shift = No`; (2) on an Empty target moves there exactly when
`shift = Yes` or the facing was already `d`, otherwise only reorienting;
(3) on a non-Empty target applies the break rule exactly when the facing
was already `d`, regardless of shift — never on the turn a new direction
is first faced. -/
theorem dir_input_world_spec (gen : Pos → Tile) (s : State) (d : Dir)
    (shift : IsShift) (hmenu : s.menu = Menu.None) :
    ∃ s', on_input gen s (Input.Dir d shift) = StepResult.next s' ∧
      (shift = IsShift.No → s'.player_dir = d) ∧
      (shift = IsShift.Yes → s'.player_dir = s.player_dir) ∧
      (get_tile gen s (posAdd s.player_pos d) = Tile.Empty →
        (s'.player_pos = posAdd s.player_pos d ↔
          (shift = IsShift.Yes ∨ s.player_dir = d)) ∧
        (¬(shift = IsShift.Yes ∨ s.player_dir = d) →
          s'.player_pos = s.player_pos) ∧
        s'.tiles = s.tiles ∧ s'.inventory = s.inventory) ∧
      (get_tile gen s (posAdd s.player_pos d) ≠ Tile.Empty →
        s'.player_pos = s.player_pos ∧
        (s.player_dir = d →
          s'.tiles = (applyBreak gen s (posAdd s.player_pos d)
            (get_tile gen s (posAdd s.player_pos d))).tiles ∧
          s'.inventory = (applyBreak gen s (posAdd s.player_pos d)
            (get_tile gen s (posAdd s.player_pos d))).inventory) ∧
        (s.player_dir ≠ d →
          s'.tiles = s.tiles ∧ s'.inventory = s.inventory)) := by
  rw [on_input_dir_none gen s d shift hmenu]
  refine ⟨_, rfl, ?_, ?_, ?_, ?_⟩
  · -- reorientation under shift = No
    intro hsh
    subst hsh
    rw [tick_player_dir]
    by_cases hE : get_tile gen ({ s with message := "" } : State)
        (posAdd s.player_pos d) = Tile.Empty
    · by_cases hd : s.player_dir = d
      · rw [odinm_move gen _ d IsShift.No hE (Or.inr hd)]
        simp
      · rw [odinm_stay gen _ d hE hd]
    · by_cases hd : s.player_dir = d
      · rw [odinm_dig gen _ d IsShift.No _ rfl hE hd, applyBreak_player_dir]
        exact hd
      · rw [odinm_nodig gen _ d IsShift.No _ rfl hE hd]
        simp
  · -- facing is untouched under shift = Yes
    intro hsh
    subst hsh
    rw [tick_player_dir]
    by_cases hE : get_tile gen ({ s with message := "" } : State)
        (posAdd s.player_pos d) = Tile.Empty
    · by_cases hd : s.player_dir = d
      · rw [odinm_move gen _ d IsShift.Yes hE (Or.inl rfl)]
        simp
      · rw [odinm_move gen _ d IsShift.Yes hE (Or.inl rfl)]
        simp
    · by_cases hd : s.player_dir = d
      · rw [odinm_dig gen _ d IsShift.Yes _ rfl hE hd, applyBreak_player_dir]
      · rw [odinm_nodig gen _ d IsShift.Yes _ rfl hE hd]
        simp
  · -- Empty target: move-gating
    intro hE
    have hE0 : get_tile gen ({ s with message := "" } : State)
        (posAdd s.player_pos d) = Tile.Empty := hE
    by_cases hmv : shift = IsShift.Yes ∨ s.player_dir = d
    · rw [odinm_move gen _ d shift hE0 hmv]
      refine ⟨?_, ?_, ?_, ?_⟩
      · rcases hmv with hsh | hd2
        · subst hsh
          simp [tick_player_pos]
        · cases shift <;> simp [tick_player_pos, hd2]
      · intro hc
        exact absurd hmv hc
      · cases shift <;> simp [tick_tiles]
      · cases shift <;> simp [tick_inventory]
    · have hsh : shift = IsShift.No := by
        cases shift
        · exact absurd (Or.inl rfl) hmv
        · rfl
      have hd : s.player_dir ≠ d := fun hc => hmv (Or.inr hc)
      subst hsh
      rw [odinm_stay gen _ d hE0 hd]
      refine ⟨?_, ?_, ?_, ?_⟩
      · constructor
        · intro hc
          rw [tick_player_pos] at hc
          have hc2 : s.player_pos = posAdd s.player_pos d := hc
          exact absurd hc2.symm (posAdd_ne s.player_pos d)
        · intro hc
          exact absurd hc hmv
      · intro _
        rw [tick_player_pos]
      · rw [tick_tiles]
      · rw [tick_inventory]
  · -- non-Empty target: dig-gating
    intro hE
    have hE0 : get_tile gen ({ s with message := "" } : State)
        (posAdd s.player_pos d) ≠ Tile.Empty := hE
    by_cases hd : s.player_dir = d
    · rw [odinm_dig gen _ d shift _ rfl hE0 hd]
      refine ⟨?_, fun _ => ⟨?_, ?_⟩, fun hc => absurd hd hc⟩
      · rw [tick_player_pos, applyBreak_player_pos]
      · rw [tick_tiles]
        exact applyBreak_tiles_congr gen _ _ rfl
      · rw [tick_inventory]
        exact applyBreak_inventory_congr gen _ _ rfl
    · rw [odinm_nodig gen _ d shift _ rfl hE0 hd]
      refine ⟨?_, fun hc => absurd hc hd, fun _ => ⟨?_, ?_⟩⟩
      · cases shift <;> simp [tick_player_pos]
      · cases shift <;> simp [tick_tiles]
      · cases shift <;> simp [tick_inventory]

/-- Witness for C3: the directional-input law instantiated at the initial
state facing the wall below spawn. -/
theorem dir_input_world_spec_witness :
    State.new.menu = Menu.None ∧
    (∃ s', on_input genWallBelow State.new (Input.Dir Dir.Down IsShift.No) =
        StepResult.next s' ∧
      (IsShift.No = IsShift.No → s'.player_dir = Dir.Down) ∧
      (IsShift.No = IsShift.Yes → s'.player_dir = State.new.player_dir) ∧
      (get_tile genWallBelow State.new (posAdd State.new.player_pos Dir.Down) =
          Tile.Empty →
        (s'.player_pos = posAdd State.new.player_pos Dir.Down ↔
          (IsShift.No = IsShift.Yes ∨ State.new.player_dir = Dir.Down)) ∧
        (¬(IsShift.No = IsShift.Yes ∨ State.new.player_dir = Dir.Down) →
          s'.player_pos = State.new.player_pos) ∧
        s'.tiles = State.new.tiles ∧ s'.inventory = State.new.inventory) ∧
      (get_tile genWallBelow State.new (posAdd State.new.player_pos Dir.Down) ≠
          Tile.Empty →
        s'.player_pos = State.new.player_pos ∧
        (State.new.player_dir = Dir.Down →
          s'.tiles = (applyBreak genWallBelow State.new
            (posAdd State.new.player_pos Dir.Down)
            (get_tile genWallBelow State.new
              (posAdd State.new.player_pos Dir.Down))).tiles ∧
          s'.inventory = (applyBreak genWallBelow State.new
            (posAdd State.new.player_pos Dir.Down)
            (get_tile genWallBelow State.new
              (posAdd State.new.player_pos Dir.Down))).inventory) ∧
        (State.new.player_dir ≠ Dir.Down →
          s'.tiles = State.new.tiles ∧ s'.inventory = State.new.inventory))) :=
  ⟨rfl, dir_input_world_spec genWallBelow State.new Dir.Down IsShift.No rfl⟩

/-! ## Claim C6: dig progression -/

/-- One same-direction, unshifted key press on a non-Empty target digs it:
the turn resolves to `tick` of the break rule applied at the target. -/
theorem dig_step (gen : Pos → Tile) (s : State) (t : Tile)
    (hmenu : s.menu = Menu.None)
    (ht : get_tile gen s (posAdd s.player_pos s.player_dir) = t)
    (hne : t ≠ Tile.Empty) :
    on_input gen s (Input.Dir s.player_dir IsShift.No) =
      StepResult.next (tick gen (applyBreak gen { s with message := "" }
        (posAdd s.player_pos s.player_dir) t)) := by
  have ht0 : get_tile gen ({ s with message := "" } : State)
      (posAdd ({ s with message := "" } : State).player_pos s.player_dir) = t := ht
  rw [on_input_dir_none gen s s.player_dir IsShift.No hmenu,
    odinm_dig gen ({ s with message := "" } : State) s.player_dir IsShift.No t ht0
      hne rfl]

/-- One same-direction, unshifted key press on an Empty target moves the
player into it. -/
theorem move_step (gen : Pos → Tile) (s : State)
    (hmenu : s.menu = Menu.None)
    (ht : get_tile gen s (posAdd s.player_pos s.player_dir) = Tile.Empty) :
    on_input gen s (Input.Dir s.player_dir IsShift.No) =
      StepResult.next (tick gen { s with message := "", player_pos := posAdd s.player_pos s.player_dir }) := by
  have ht0 : get_tile gen ({ s with message := "" } : State)
      (posAdd ({ s with message := "" } : State).player_pos s.player_dir) =
        Tile.Empty := ht
  rw [on_input_dir_none gen s s.player_dir IsShift.No hmenu,
    odinm_move gen ({ s with message := "" } : State) s.player_dir IsShift.No ht0
      (Or.inr rfl)]
  simp

/-- One dig round whose break rule yields a weaker tile: everything but
the store (and the transient message) is untouched, and the target now
reads as the weaker tile. -/
theorem dig_round (gen : Pos → Tile) (s : State) (t t2 : Tile)
    (hmenu : s.menu = Menu.None)
    (ht : get_tile gen s (posAdd s.player_pos s.player_dir) = t)
    (hne : t ≠ Tile.Empty) (hbr : t.breaks_into = BreakResult.Tile t2) :
    ∃ s', on_input gen s (Input.Dir s.player_dir IsShift.No) = StepResult.next s' ∧
      s'.player_pos = s.player_pos ∧ s'.player_dir = s.player_dir ∧
      s'.menu = s.menu ∧ s'.inventory = s.inventory ∧
      s'.selected_item = s.selected_item ∧
      get_tile gen s' (posAdd s.player_pos s.player_dir) = t2 := by
  have h := dig_step gen s t hmenu ht hne
  have e : applyBreak gen { s with message := "" }
      (posAdd s.player_pos s.player_dir) t =
      set_tile gen { s with message := "" }
        (posAdd s.player_pos s.player_dir) t2 := by
    unfold applyBreak
    rw [hbr]
  rw [e] at h
  refine ⟨_, h, ?_, ?_, ?_, ?_, ?_, ?_⟩
  · rw [tick_player_pos, set_tile_player_pos]
  · rw [tick_player_dir, set_tile_player_dir]
  · rw [tick_menu, set_tile_menu]
  · rw [tick_inventory, set_tile_inventory]
  · rw [tick_selected_item, set_tile_selected_item]
  · rw [get_tile_congr gen (tick_tiles gen _) _]
    exact get_tile_set_tile_same gen _ _ _

/-- The final dig round, whose break rule yields an item: the target
becomes Empty and exactly that item is inserted into the inventory. -/
theorem dig_round_item (gen : Pos → Tile) (s : State) (t : Tile) (i : Item)
    (hmenu : s.menu = Menu.None)
    (ht : get_tile gen s (posAdd s.player_pos s.player_dir) = t)
    (hne : t ≠ Tile.Empty) (hbr : t.breaks_into = BreakResult.Item i) :
    ∃ s', on_input gen s (Input.Dir s.player_dir IsShift.No) = StepResult.next s' ∧
      s'.player_pos = s.player_pos ∧ s'.player_dir = s.player_dir ∧
      s'.menu = s.menu ∧ s'.inventory = s.inventory.insert i ∧
      s'.selected_item = s.selected_item ∧
      get_tile gen s' (posAdd s.player_pos s.player_dir) = Tile.Empty := by
  have h := dig_step gen s t hmenu ht hne
  have e : applyBreak gen { s with message := "" }
      (posAdd s.player_pos s.player_dir) t =
      set_tile gen { ({ s with message := "" } : State) with
          inventory := ({ s with message := "" } : State).inventory.insert i }
        (posAdd s.player_pos s.player_dir) Tile.Empty := by
    unfold applyBreak
    rw [hbr]
  rw [e] at h
  refine ⟨_, h, ?_, ?_, ?_, ?_, ?_, ?_⟩
  · rw [tick_player_pos, set_tile_player_pos]
  · rw [tick_player_dir, set_tile_player_dir]
  · rw [tick_menu, set_tile_menu]
  · rw [tick_inventory, set_tile_inventory]
  · rw [tick_selected_item, set_tile_selected_item]
  · rw [get_tile_congr gen (tick_tiles gen _) _]
    exact get_tile_set_tile_same gen _ _ _

/-- A same-direction press into an Empty tile: the store and the
inventory stay exactly as they were (only the player moves). -/
theorem move_round (gen : Pos → Tile) (s : State)
    (hmenu : s.menu = Menu.None)
    (ht : get_tile gen s (posAdd s.player_pos s.player_dir) = Tile.Empty) :
    ∃ s', on_input gen s (Input.Dir s.player_dir IsShift.No) = StepResult.next s' ∧
      s'.tiles = s.tiles ∧ s'.inventory = s.inventory := by
  have h := move_step gen s hmenu ht
  refine ⟨_, h, ?_, ?_⟩
  · rw [tick_tiles]
  · rw [tick_inventory]

/-- C6: digging a `WallFull` target three times while continuously facing
it yields WallHalf, then WallLow, then Empty with exactly one Wall item
deposited in the inventory; the fourth identical input changes neither the
world store nor the inventory. -/
theorem dig_progression (gen : Pos → Tile) (s : State)
    (hmenu : s.menu = Menu.None)
    (hW : get_tile gen s (posAdd s.player_pos s.player_dir) = Tile.WallFull) :
    ∃ s1 s2 s3 s4,
      on_input gen s (Input.Dir s.player_dir IsShift.No) = StepResult.next s1 ∧
      get_tile gen s1 (posAdd s.player_pos s.player_dir) = Tile.WallHalf ∧
      on_input gen s1 (Input.Dir s1.player_dir IsShift.No) = StepResult.next s2 ∧
      get_tile gen s2 (posAdd s.player_pos s.player_dir) = Tile.WallLow ∧
      on_input gen s2 (Input.Dir s2.player_dir IsShift.No) = StepResult.next s3 ∧
      get_tile gen s3 (posAdd s.player_pos s.player_dir) = Tile.Empty ∧
      s3.inventory.count_of Item.Wall = s.inventory.count_of Item.Wall + 1 ∧
      s3.inventory.count_of Item.Wood = s.inventory.count_of Item.Wood ∧
      on_input gen s3 (Input.Dir s3.player_dir IsShift.No) = StepResult.next s4 ∧
      s4.tiles = s3.tiles ∧ s4.inventory = s3.inventory := by
  obtain ⟨s1, h1, p1, d1, m1, i1, _, g1⟩ :=
    dig_round gen s Tile.WallFull Tile.WallHalf hmenu hW (by decide) rfl
  have hp1 : posAdd s1.player_pos s1.player_dir = posAdd s.player_pos s.player_dir := by
    rw [p1, d1]
  have hmenu1 : s1.menu = Menu.None := by rw [m1]; exact hmenu
  have ht1 : get_tile gen s1 (posAdd s1.player_pos s1.player_dir) = Tile.WallHalf := by
    rw [hp1]; exact g1
  obtain ⟨s2, h2, p2, d2, m2, i2, _, g2⟩ :=
    dig_round gen s1 Tile.WallHalf Tile.WallLow hmenu1 ht1 (by decide) rfl
  have hp2 : posAdd s2.player_pos s2.player_dir = posAdd s.player_pos s.player_dir := by
    rw [p2, d2, hp1]
  have hmenu2 : s2.menu = Menu.None := by rw [m2]; exact hmenu1
  have ht2 : get_tile gen s2 (posAdd s2.player_pos s2.player_dir) = Tile.WallLow := by
    rw [hp2, ← hp1]; exact g2
  obtain ⟨s3, h3, p3, d3, m3, i3, _, g3⟩ :=
    dig_round_item gen s2 Tile.WallLow Item.Wall hmenu2 ht2 (by decide) rfl
  have hp3 : posAdd s3.player_pos s3.player_dir = posAdd s.player_pos s.player_dir := by
    rw [p3, d3, hp2]
  have hmenu3 : s3.menu = Menu.None := by rw [m3]; exact hmenu2
  have ht3 : get_tile gen s3 (posAdd s3.player_pos s3.player_dir) = Tile.Empty := by
    rw [hp3, ← hp2]; exact g3
  obtain ⟨s4, h4, t4, i4⟩ := move_round gen s3 hmenu3 ht3
  have hinv2 : s2.inventory = s.inventory := by rw [i2, i1]
  refine ⟨s1, s2, s3, s4, h1, g1, h2, ?_, h3, ?_, ?_, ?_, h4, t4, i4⟩
  · rw [← hp1]; exact g2
  · rw [← hp2]; exact g3
  · rw [i3, hinv2, count_of_insert_self]
  · rw [i3, hinv2]
    exact count_of_insert_ne s.inventory (by decide)

/-- Witness for C6: the dig progression carried out from the initial state
against the generator whose wall sits below spawn. -/
theorem dig_progression_witness :
    State.new.menu = Menu.None ∧
    get_tile genWallBelow State.new
      (posAdd State.new.player_pos State.new.player_dir) = Tile.WallFull ∧
    (∃ s1 s2 s3 s4,
      on_input genWallBelow State.new (Input.Dir State.new.player_dir IsShift.No) =
        StepResult.next s1 ∧
      get_tile genWallBelow s1
        (posAdd State.new.player_pos State.new.player_dir) = Tile.WallHalf ∧
      on_input genWallBelow s1 (Input.Dir s1.player_dir IsShift.No) =
        StepResult.next s2 ∧
      get_tile genWallBelow s2
        (posAdd State.new.player_pos State.new.player_dir) = Tile.WallLow ∧
      on_input genWallBelow s2 (Input.Dir s2.player_dir IsShift.No) =
        StepResult.next s3 ∧
      get_tile genWallBelow s3
        (posAdd State.new.player_pos State.new.player_dir) = Tile.Empty ∧
      s3.inventory.count_of Item.Wall =
        State.new.inventory.count_of Item.Wall + 1 ∧
      s3.inventory.count_of Item.Wood = State.new.inventory.count_of Item.Wood ∧
      on_input genWallBelow s3 (Input.Dir s3.player_dir IsShift.No) =
        StepResult.next s4 ∧
      s4.tiles = s3.tiles ∧ s4.inventory = s3.inventory) :=
  ⟨rfl, by decide, dig_progression genWallBelow State.new rfl (by decide)⟩

/-! ## Claim C2: build gating -/

/-- Concrete start state for the build-gating scenario: standing at the
origin facing Down over all-Empty terrain, one Wall in the inventory and
selected. -/
def buildStart : State :=
  { tiles := []
    player_pos := (0, 0)
    player_dir := Dir.Down
    message := ""
    inventory := ⟨[(Item.Wall, 1)]⟩
    menu := Menu.None
    selected_item := some Item.Wall }

/-- The state after the first `Build` from `buildStart`. -/
def buildMid : State :=
  { tiles := [(((0 : Int), (1 : Int)), Tile.WallFull)]
    player_pos := (0, 0)
    player_dir := Dir.Down
    message := "You are facing a wall"
    inventory := ⟨[]⟩
    menu := Menu.None
    selected_item := some Item.Wall }

/-- The state after the second `Build`. -/
def buildEnd : State :=
  { tiles := [(((0 : Int), (1 : Int)), Tile.WallFull)]
    player_pos := (0, 0)
    player_dir := Dir.Down
    message := "You cannot build on existing tiles."
    inventory := ⟨[]⟩
    menu := Menu.None
    selected_item := some Item.Wall }

/-- Counterexample to C2 as stated: from a state with Wall selected at
count 1 and an Empty target, the first `Build` consumes the Wall and
places `WallFull`, but the second `Build` reports "You cannot build on
existing tiles." — not "no item selected" — and the selection is *not*
cleared: `selected_item` still holds the spent Wall. -/
theorem build_gating_counterexample :
    on_input genEmpty buildStart Input.Build = StepResult.next buildMid ∧
    buildMid.inventory.count_of Item.Wall = 0 ∧
    get_tile genEmpty buildMid ((0 : Int), (1 : Int)) = Tile.WallFull ∧
    on_input genEmpty buildMid Input.Build = StepResult.next buildEnd ∧
    buildEnd.message = "You cannot build on existing tiles." ∧
    ¬ (buildEnd.message = "no item selected") ∧
    ¬ (buildEnd.message = "You have no item selected to build.") ∧
    ¬ (buildEnd.selected_item = none) ∧
    buildEnd.tiles = buildMid.tiles := by
  decide

/-- The state produced by a successful `Build` of a Wall: one Wall removed
from the inventory, `WallFull` written at the target, then the tick. -/
def buildStep1 (gen : Pos → Tile) (s : State) : State :=
  tick gen (set_tile gen
    { ({ s with message := "" } : State) with
        inventory := Inventory.mk (removeKey s.inventory.items Item.Wall) }
    (posAdd s.player_pos s.player_dir) Tile.WallFull)

/-- C2 (amended): with Wall selected at count 1 facing an Empty tile,
`Build` consumes the Wall and sets the target to `WallFull`; a second
`Build` produces the message "You cannot build on existing tiles."
(the selection still holds the spent Wall — it is not cleared) and leaves
the world store unchanged. -/
theorem build_gating_amended (gen : Pos → Tile) (s : State)
    (hmenu : s.menu = Menu.None)
    (hsel : s.selected_item = some Item.Wall)
    (hcount : s.inventory.count_of Item.Wall = 1)
    (hE : get_tile gen s (posAdd s.player_pos s.player_dir) = Tile.Empty) :
    ∃ s1 s2,
      on_input gen s Input.Build = StepResult.next s1 ∧
      s1.inventory.count_of Item.Wall = 0 ∧
      get_tile gen s1 (posAdd s.player_pos s.player_dir) = Tile.WallFull ∧
      s1.selected_item = some Item.Wall ∧
      on_input gen s1 Input.Build = StepResult.next s2 ∧
      s2.message = "You cannot build on existing tiles." ∧
      s2.tiles = s1.tiles ∧ s2.selected_item = some Item.Wall := by
  have hl : lookupKey Item.Wall s.inventory.items = some 1 := by
    rcases hx : lookupKey Item.Wall s.inventory.items with _ | c
    · exfalso
      unfold Inventory.count_of at hcount
      rw [hx, Option.getD_none] at hcount
      omega
    · unfold Inventory.count_of at hcount
      rw [hx, Option.getD_some] at hcount
      rw [hcount]
  have hrem : s.inventory.remove Item.Wall =
      RemoveResult.ok (Inventory.mk (removeKey s.inventory.items Item.Wall)) := by
    simp only [Inventory.remove, hl]
    rw [if_neg (by decide), if_pos (by decide)]
  have hE0 : get_tile gen ({ s with message := "" } : State)
      (posAdd ({ s with message := "" } : State).player_pos
        ({ s with message := "" } : State).player_dir) = Tile.Empty := hE
  have hsel0 : ({ s with message := "" } : State).selected_item =
      some Item.Wall := hsel
  have hrem0 : ({ s with message := "" } : State).inventory.remove Item.Wall =
      RemoveResult.ok (Inventory.mk (removeKey s.inventory.items Item.Wall)) := hrem
  have h1 := on_build_success gen ({ s with message := "" } : State) Item.Wall
    Tile.WallFull (Inventory.mk (removeKey s.inventory.items Item.Wall))
    hE0 hsel0 rfl hrem0
  have hb1 : on_input gen s Input.Build = StepResult.next (buildStep1 gen s) := by
    rw [on_input_build, h1]
    rfl
  have c1 : (buildStep1 gen s).inventory.count_of Item.Wall = 0 := by
    unfold buildStep1
    rw [tick_inventory, set_tile_inventory]
    show (lookupKey Item.Wall (removeKey s.inventory.items Item.Wall)).getD 0 = 0
    rw [lookupKey_removeKey_self]
    rfl
  have c2 : get_tile gen (buildStep1 gen s) (posAdd s.player_pos s.player_dir) =
      Tile.WallFull := by
    unfold buildStep1
    rw [get_tile_congr gen (tick_tiles gen _) _]
    exact get_tile_set_tile_same gen _ _ _
  have c3 : (buildStep1 gen s).selected_item = some Item.Wall := by
    unfold buildStep1
    rw [tick_selected_item, set_tile_selected_item]
    exact hsel
  have pp1 : (buildStep1 gen s).player_pos = s.player_pos := by
    unfold buildStep1
    rw [tick_player_pos, set_tile_player_pos]
  have dd1 : (buildStep1 gen s).player_dir = s.player_dir := by
    unfold buildStep1
    rw [tick_player_dir, set_tile_player_dir]
  have hWne : get_tile gen ({ buildStep1 gen s with message := "" } : State)
      (posAdd ({ buildStep1 gen s with message := "" } : State).player_pos
        ({ buildStep1 gen s with message := "" } : State).player_dir) ≠
        Tile.Empty := by
    have hpp : posAdd ({ buildStep1 gen s with message := "" } : State).player_pos
        ({ buildStep1 gen s with message := "" } : State).player_dir =
        posAdd s.player_pos s.player_dir := by
      show posAdd (buildStep1 gen s).player_pos (buildStep1 gen s).player_dir =
        posAdd s.player_pos s.player_dir
      rw [pp1, dd1]
    rw [hpp]
    have hgt : get_tile gen ({ buildStep1 gen s with message := "" } : State)
        (posAdd s.player_pos s.player_dir) = Tile.WallFull := by
      rw [get_tile_congr gen
        (show ({ buildStep1 gen s with message := "" } : State).tiles =
          (buildStep1 gen s).tiles from rfl) _]
      exact c2
    rw [hgt]
    decide
  have h2 := on_build_blocked gen ({ buildStep1 gen s with message := "" } : State)
    hWne
  have htick2 : tick gen { ({ buildStep1 gen s with message := "" } : State) with
      message := "You cannot build on existing tiles." } =
      { ({ buildStep1 gen s with message := "" } : State) with
        message := "You cannot build on existing tiles." } :=
    tick_of_message_ne gen
      { ({ buildStep1 gen s with message := "" } : State) with
        message := "You cannot build on existing tiles." }
      (by show ("You cannot build on existing tiles." : String) ≠ ""; decide)
  have hb2 : on_input gen (buildStep1 gen s) Input.Build = StepResult.next
      { ({ buildStep1 gen s with message := "" } : State) with
        message := "You cannot build on existing tiles." } := by
    rw [on_input_build, h2]
    exact congrArg StepResult.next htick2
  exact ⟨buildStep1 gen s,
    { ({ buildStep1 gen s with message := "" } : State) with
      message := "You cannot build on existing tiles." },
    hb1, c1, c2, c3, hb2, rfl, rfl, c3⟩

/-- Witness for C2 (amended) at the concrete scenario start state. -/
theorem build_gating_amended_witness :
    buildStart.menu = Menu.None ∧
    buildStart.selected_item = some Item.Wall ∧
    buildStart.inventory.count_of Item.Wall = 1 ∧
    get_tile genEmpty buildStart
      (posAdd buildStart.player_pos buildStart.player_dir) = Tile.Empty ∧
    (∃ s1 s2,
      on_input genEmpty buildStart Input.Build = StepResult.next s1 ∧
      s1.inventory.count_of Item.Wall = 0 ∧
      get_tile genEmpty s1 (posAdd buildStart.player_pos buildStart.player_dir) =
        Tile.WallFull ∧
      s1.selected_item = some Item.Wall ∧
      on_input genEmpty s1 Input.Build = StepResult.next s2 ∧
      s2.message = "You cannot build on existing tiles." ∧
      s2.tiles = s1.tiles ∧ s2.selected_item = some Item.Wall) :=
  ⟨rfl, rfl, by decide, by decide,
    build_gating_amended genEmpty buildStart rfl rfl (by decide) (by decide)⟩

/-! ## Claim C1: the Build removal step can panic -/

/-- Input sequence from the initial state against `genWallBelow`: dig the
wall below three times (collecting one Wall item), select it through the
inventory menu, build it back, then turn Up.  After these eight inputs the
inventory is empty but `selected_item` still holds the spent Wall. -/
def danglingSelectionSeq : List Input :=
  [Input.Dir Dir.Down IsShift.No, Input.Dir Dir.Down IsShift.No,
   Input.Dir Dir.Down IsShift.No, Input.OpenInventory,
   Input.Dir Dir.Right IsShift.No, Input.CloseMenu, Input.Build,
   Input.Dir Dir.Up IsShift.No]

/-- The state reached by `danglingSelectionSeq`: empty store, empty
inventory, facing Up, with `selected_item = some Wall` dangling. -/
def danglingSelectionState : State :=
  { tiles := []
    player_pos := (0, 0)
    player_dir := Dir.Up
    message := ""
    inventory := ⟨[]⟩
    menu := Menu.None
    selected_item := some Item.Wall }

/-- C1 refutation: a state is reachable from the initial state in which
`Build` reaches the removal step — the target is Empty, an item is
selected, and it maps to a tile — while the selected item's count is 0,
so `inventory.remove(..).expect(..)` panics: the failure branch of the
removal is reachable. -/
theorem build_remove_panic_reachable :
    runList genWallBelow State.new danglingSelectionSeq =
      Outcome.running danglingSelectionState ∧
    get_tile genWallBelow danglingSelectionState
      (posAdd danglingSelectionState.player_pos
        danglingSelectionState.player_dir) = Tile.Empty ∧
    danglingSelectionState.selected_item = some Item.Wall ∧
    Item.to_tile Item.Wall = some Tile.WallFull ∧
    danglingSelectionState.inventory.count_of Item.Wall = 0 ∧
    danglingSelectionState.inventory.remove Item.Wall =
      RemoveResult.hasNone danglingSelectionState.inventory ∧
    on_input genWallBelow danglingSelectionState Input.Build = StepResult.panic ∧
    runList genWallBelow State.new (danglingSelectionSeq ++ [Input.Build]) =
      Outcome.panicked := by
  decide

/-! ## Claim C5: the store only holds deltas -/

/-- The delta invariant of the world store: every entry differs from the
generated tile at its position. -/
def TilesOK (gen : Pos → Tile) (l : List (Pos × Tile)) : Prop :=
  ∀ e ∈ l, e.2 ≠ gen e.1

theorem set_tile_TilesOK (gen : Pos → Tile) (s : State) (pos : Pos) (tile : Tile)
    (h : TilesOK gen s.tiles) : TilesOK gen (set_tile gen s pos tile).tiles := by
  intro e he
  rw [set_tile_tiles] at he
  by_cases hg : tile = gen pos
  · rw [if_pos hg] at he
    exact h e (mem_removeKey he).1
  · rw [if_neg hg] at he
    rcases mem_insertKey he with rfl | hmem
    · exact hg
    · exact h e hmem

theorem applyBreak_TilesOK (gen : Pos → Tile) (s : State) (pos : Pos) (t : Tile)
    (h : TilesOK gen s.tiles) : TilesOK gen (applyBreak gen s pos t).tiles := by
  unfold applyBreak
  cases t.breaks_into with
  | Tile t2 => exact set_tile_TilesOK gen s pos t2 h
  | Item i =>
    exact set_tile_TilesOK gen { s with inventory := s.inventory.insert i } pos
      Tile.Empty h
  | CannotBeBroken => exact h

theorem odinm_TilesOK (gen : Pos → Tile) (s : State) (d : Dir) (sh : IsShift)
    (h : TilesOK gen s.tiles) :
    TilesOK gen (on_dir_input_no_menu gen s d sh).tiles := by
  by_cases hE : get_tile gen s (posAdd s.player_pos d) = Tile.Empty
  · by_cases hmv : sh = IsShift.Yes ∨ s.player_dir = d
    · rw [odinm_move gen s d sh hE hmv]
      cases sh <;> exact h
    · have hsh : sh = IsShift.No := by
        cases sh
        · exact absurd (Or.inl rfl) hmv
        · rfl
      subst hsh
      have hd : s.player_dir ≠ d := fun hc => hmv (Or.inr hc)
      rw [odinm_stay gen s d hE hd]
      exact h
  · by_cases hd : s.player_dir = d
    · rw [odinm_dig gen s d sh _ rfl hE hd]
      exact applyBreak_TilesOK gen s _ _ h
    · rw [odinm_nodig gen s d sh _ rfl hE hd]
      cases sh <;> exact h

theorem odini_some_tiles {s : State} {d : Dir} {s' : State}
    (h : on_dir_input_inventory s d = some s') : s'.tiles = s.tiles := by
  unfold on_dir_input_inventory at h
  rcases hsel : s.selected_item with _ | item
  · simp only [hsel] at h
    injection h with h2
    rw [← h2]
  · simp only [hsel] at h
    rcases hnx : (if d = Dir.Right ∨ d = Dir.Down then s.inventory.next item
        else s.inventory.prev item) with _ | item2
    · simp only [hnx] at h
      cases h
    · simp only [hnx] at h
      injection h with h2
      rw [← h2]

theorem on_build_some_TilesOK (gen : Pos → Tile) (s : State) (s' : State)
    (h : TilesOK gen s.tiles) (hb : on_build gen s = some s') :
    TilesOK gen s'.tiles := by
  unfold on_build at hb
  by_cases hE : get_tile gen s (posAdd s.player_pos s.player_dir) ≠ Tile.Empty
  · rw [if_pos hE] at hb
    injection hb with h2
    rw [← h2]
    exact h
  · rw [if_neg hE] at hb
    rcases hsel : s.selected_item with _ | it
    · simp only [hsel] at hb
      injection hb with h2
      rw [← h2]
      exact h
    · simp only [hsel] at hb
      rcases htile : it.to_tile with _ | tile
      · simp only [htile] at hb
        injection hb with h2
        rw [← h2]
        exact h
      · simp only [htile] at hb
        rcases hrem : s.inventory.remove it with inv | inv | _
        · simp only [hrem] at hb
          injection hb with h2
          rw [← h2]
          exact set_tile_TilesOK gen _ _ tile h
        · simp only [hrem] at hb
          cases hb
        · simp only [hrem] at hb
          cases hb

theorem on_input_TilesOK (gen : Pos → Tile) (s : State) (i : Input) (s' : State)
    (h : TilesOK gen s.tiles)
    (hstep : on_input gen s i = StepResult.next s') : TilesOK gen s'.tiles := by
  cases i with
  | Dir d sh =>
    simp only [on_input] at hstep
    rcases hdi : on_dir_input gen ({ s with message := "" } : State) d sh
      with _ | s1
    · rw [hdi] at hstep
      cases hstep
    · rw [hdi] at hstep
      injection hstep with h2
      rw [← h2, tick_tiles]
      unfold on_dir_input at hdi
      rcases hmenu : s.menu with _ | _
      · rw [show ({ s with message := "" } : State).menu = Menu.None from hmenu]
          at hdi
        injection hdi with h3
        rw [← h3]
        exact odinm_TilesOK gen _ d sh h
      · rw [show ({ s with message := "" } : State).menu = Menu.Inventory
          from hmenu] at hdi
        have := odini_some_tiles hdi
        rw [this]
        exact h
  | Build =>
    simp only [on_input] at hstep
    rcases hb : on_build gen ({ s with message := "" } : State) with _ | s1
    · rw [hb] at hstep
      cases hstep
    · rw [hb] at hstep
      injection hstep with h2
      rw [← h2, tick_tiles]
      exact on_build_some_TilesOK gen ({ s with message := "" } : State) s1 h hb
  | Quit => cases hstep
  | OpenInventory =>
    injection hstep with h2
    rw [← h2, tick_tiles]
    exact h
  | CloseMenu =>
    injection hstep with h2
    rw [← h2, tick_tiles]
    exact h

theorem runList_TilesOK (gen : Pos → Tile) :
    ∀ (l : List Input) (s s' : State), TilesOK gen s.tiles →
      runList gen s l = Outcome.running s' → TilesOK gen s'.tiles
  | [], s, s', h, hr => by
    injection hr with h2
    rw [← h2]
    exact h
  | i :: rest, s, s', h, hr => by
    unfold runList at hr
    rcases hstep : on_input gen s i with s1 | _ | _
    · rw [hstep] at hr
      exact runList_TilesOK gen rest s1 s' (on_input_TilesOK gen s i s1 h hstep) hr
    · rw [hstep] at hr
      cases hr
    · rw [hstep] at hr
      cases hr

/-- C5: in every state reachable from the initial state, every entry of
the override store differs from the generated tile at its position, and
reading any position with no entry yields the generated tile. -/
theorem store_delta_invariant (gen : Pos → Tile) (s : State)
    (hr : Reachable gen s) :
    (∀ e ∈ s.tiles, e.2 ≠ gen e.1) ∧
    (∀ pos : Pos, lookupKey pos s.tiles = none → get_tile gen s pos = gen pos) := by
  constructor
  · rcases hr with ⟨l, hl⟩
    refine runList_TilesOK gen l State.new s ?_ hl
    intro e he
    cases he
  · intro pos hnone
    unfold get_tile
    rw [hnone, Option.getD_none]

/-- Witness for C5: the initial state is reachable (empty input list) and
satisfies the invariant. -/
theorem store_delta_invariant_witness :
    Reachable genEmpty State.new ∧
    (∀ e ∈ State.new.tiles, e.2 ≠ genEmpty e.1) ∧
    (∀ pos : Pos, lookupKey pos State.new.tiles = none →
      get_tile genEmpty State.new pos = genEmpty pos) :=
  ⟨⟨[], rfl⟩, store_delta_invariant genEmpty State.new ⟨[], rfl⟩⟩
